import Mathlib

/-!
# Eureka-cli: the `info`, `info url` and `wait` commands

A shallow embedding of `src/eureka-cli.go`.

* The registry reached through `discovery.Client` is an environment: the
  answer to a query may depend on how many queries were made before it and
  on the time (in nanoseconds since the command started) at which it is made.
  Every call appends the query to a log, so that "how many queries were
  issued" is a statement about the log.
* The sequential commands (`info`, `info url`, the checks of `wait` and its
  zero-timeout branch) are functions.
* The polling branch of `wait` (a goroutine, an unbuffered channel, a timer
  and a `select`) is a transition system with an executable successor
  function; a schedule picks one enabled successor at every step. Time is
  counted in nanoseconds, as `time.Duration` does.
-/

namespace EurekaCli

/-! ## Constants -/

def timeoutErrorCode : Nat := 2
def infoUrlInstanceNotFoundCode : Nat := 3
def idEmptyErrorCode : Nat := 4
def appNameEmptyErrorCode : Nat := 5

/-- The constant `time.Second`, in nanoseconds. -/
def second : Nat := 1000000000

/-- The value an integer takes in a signed 64-bit word. -/
def wrapInt64 (x : Int) : Int :=
  (x + 9223372036854775808) % 18446744073709551616 - 9223372036854775808

/-- The duration `time.Second * time.Duration(context.Int("time"))`, in
nanoseconds: the product is taken in 64 bits and wraps around. -/
def timerDuration (time : Int) : Int :=
  wrapInt64 (1000000000 * time)

/-! ## Data model -/

/-- Modelled from the spec: the type `discovery.Port` of the package
`eureka-interface`, which is not among the sources; the commands read only
its field `Number`. -/
structure Port where
  Number : Int
deriving DecidableEq, Repr

/-- Modelled from the spec: the type `discovery.Instance` of the package
`eureka-interface`, which is not among the sources; these are the fields the
commands and the template read. -/
structure Instance where
  AppName : String
  Status : String
  Id : String
  Ip : String
  Port : Port
deriving DecidableEq, Repr

/-- The four lookups of `discovery.Client` that the commands call. -/
inductive Query where
  | GetInstances
  | GetInstanceById (instanceId : String)
  | GetInstancesByApp (appName : String)
  | GetInstanceByAppAndId (appName instanceId : String)
deriving DecidableEq, Repr

/-- The log of the queries sent to the registry so far, oldest first. -/
abbrev Net := List Query

/-- Modelled from the spec: the type `discovery.Client` of the package
`eureka-interface`, which is not among the sources. `registry k t q` is what
the server at `EurekaHost:EurekaPort` answers to the query `q` when `k`
queries were made before it and it is made `t` nanoseconds after the start. -/
structure Client where
  EurekaHost : String
  EurekaPort : Int
  registry : Nat → Nat → Query → List Instance

/-- One round trip: the answer, and the log extended by the query. -/
def Client.call (client : Client) (q : Query) (now : Nat) (net : Net) :
    List Instance × Net :=
  (client.registry net.length now q, net ++ [q])

def Client.GetInstances (client : Client) (now : Nat) (net : Net) :
    List Instance × Net :=
  client.call Query.GetInstances now net

def Client.GetInstanceById (client : Client) (instanceId : String) (now : Nat)
    (net : Net) : List Instance × Net :=
  client.call (Query.GetInstanceById instanceId) now net

def Client.GetInstancesByApp (client : Client) (appName : String) (now : Nat)
    (net : Net) : List Instance × Net :=
  client.call (Query.GetInstancesByApp appName) now net

def Client.GetInstanceByAppAndId (client : Client) (appName instanceId : String)
    (now : Nat) (net : Net) : List Instance × Net :=
  client.call (Query.GetInstanceByAppAndId appName instanceId) now net

/-! ## Rendering: `instancesListTemplate` -/

/-- The verb `%-W.Ps` of `printf`: the argument is cut to at most `prec`
characters, then padded on the right with spaces up to `width`. -/
def printfS (width prec : Nat) (s : String) : String :=
  String.mk (s.data.take prec ++
    List.replicate (width - (s.data.take prec).length) ' ')

/-- The verb `%d` of `printf`: decimal digits, a minus sign when negative,
no padding. -/
def printfD (n : Int) : String :=
  toString n

/-- The first line of `instancesListTemplate` without the text that ends it. -/
def headerColumns : String :=
  printfS 20 20 "APP NAME" ++ printfS 10 10 "STATUS" ++ printfS 35 35 "ID" ++
    printfS 18 18 "IP ADDRESS" ++ printfS 18 18 "PORT"

/-- The body of `{{range .Items}}` without the text that ends it. -/
def rowColumns (i : Instance) : String :=
  printfS 20 20 i.AppName ++ printfS 10 10 i.Status ++ printfS 35 35 i.Id ++
    printfS 18 18 i.Ip ++ printfD i.Port.Number

/-- Execution of `instancesListTemplate` on `{Items}`. Every action is opened
with `{{-`, which trims the (empty) text before it; the text after the last
action of the header and of the range body is a space and a line feed. The
output is written front to back, one pass of the range body per item. -/
def instancesListTemplate (Items : List Instance) : String :=
  Items.foldl (fun out i => out ++ rowColumns i ++ " \n") (headerColumns ++ " \n")

/-! ## What a command does -/

/-- What a command writes to standard output. -/
inductive Output where
  /-- The text of `t.Execute(os.Stdout, {Items})`. -/
  | table (Items : List Instance)
  /-- The text of `fmt.Println("It took: ", time.Now().Sub(*start))`; the
  duration is in nanoseconds. -/
  | took (elapsed : Nat)
  /-- The text of `fmt.Printf("Wait for instanceID: ...")`. -/
  | waiting (instanceId appName : String)
  /-- The text of `fmt.Printf("http://%s:%d\n", ...)`. -/
  | url (ip : String) (port : Int)
  /-- The text of `cli.ShowCommandHelp`. -/
  | help (command : String)
deriving DecidableEq, Repr

/-- How a command ends. -/
inductive Ending where
  /-- The action has not returned yet. -/
  | running
  /-- The action returned (`nil` for `url` and `wait`). -/
  | returned
  /-- The action returned `cli.NewExitError(message, code)`. -/
  | exitError (message : String) (code : Nat)
  /-- The action called `cli.ShowCommandHelpAndExit(context, command, code)`. -/
  | helpAndExit (command : String) (code : Nat)
deriving DecidableEq, Repr

/-- The exit code of the process, once the command has ended. -/
def Ending.exitCode : Ending → Option Nat
  | Ending.running => none
  | Ending.returned => some 0
  | Ending.exitError _ code => some code
  | Ending.helpAndExit _ code => some code

/-- What one invocation of a command did. -/
structure Run where
  net : Net
  stdout : List Output
  ending : Ending
deriving DecidableEq, Repr

/-- The standard output of a run as text; only the table is spelled out. -/
def Run.tables (r : Run) : List String :=
  r.stdout.filterMap fun o =>
    match o with
    | Output.table Items => some (instancesListTemplate Items)
    | _ => none

/-- The call `context.Args().Get(n)`: the empty string when there is no such
argument. -/
def Args.Get (args : List String) (n : Nat) : String :=
  args.getD n ""

/-! ## `info` -/

/-- The action of `info`; `appName` and `instanceId` are the values of the
flags `app-name` and `id`. -/
def infoAction (client : Client) (appName instanceId : String) : Run :=
  let r : List Instance × Net :=
    if appName = "" ∧ instanceId = "" then client.GetInstances 0 []
    else if appName = "" then client.GetInstanceById instanceId 0 []
    else if instanceId = "" then client.GetInstancesByApp appName 0 []
    else client.GetInstanceByAppAndId appName instanceId 0 []
  { net := r.2, stdout := [Output.table r.1], ending := Ending.returned }

/-! ## `info url` -/

/-- The action of `info url`. -/
def urlAction (client : Client) (args : List String) : Run :=
  let appName := Args.Get args 0
  let instanceId := Args.Get args 1
  if appName = "" then
    { net := [], stdout := [Output.help "url"],
      ending := Ending.helpAndExit "url" appNameEmptyErrorCode }
  else if instanceId = "" then
    { net := [], stdout := [Output.help "url"],
      ending := Ending.helpAndExit "url" idEmptyErrorCode }
  else
    let r := client.GetInstanceByAppAndId appName instanceId 0 []
    match r.1 with
    | [] =>
      { net := r.2, stdout := [],
        ending := Ending.exitError
          ("Instance with App name: \"" ++ appName ++ "\", and Id: \"" ++
            instanceId ++ "\" not found")
          infoUrlInstanceNotFoundCode }
    | inst :: _ =>
      { net := r.2, stdout := [Output.url inst.Ip inst.Port.Number],
        ending := Ending.returned }

/-! ## `wait`: the sequential part -/

/-- The closure `successFunction`; `start` is `none` for the nil pointer. -/
def successFunction (inst : Instance) (start : Option Nat) (now : Nat) :
    List Output :=
  (match start with
    | some t => [Output.took (now - t)]
    | none => []) ++
  [Output.table ([] ++ [inst])]

/-- The closure `foundInstanceFunction`. The callback `function` acts on a
state of type `σ`; the result is the returned boolean, the state after the
callback (if it was called) and the log after the query. -/
def foundInstanceFunction {σ : Type} (appName instanceId : String)
    (client : Client) (now : Nat) (net : Net)
    (function : Instance → σ → σ) (st : σ) : Bool × σ × Net :=
  let r := client.GetInstanceByAppAndId appName instanceId now net
  match r.1 with
  | inst :: _ =>
    if inst.Status = "UP" then (true, function inst st, r.2)
    else (false, st, r.2)
  | [] => (false, st, r.2)

/-! ## `wait`: the polling part

The goroutine started by `go func() { for { ... } }()` and the `select` of the
action run concurrently. Time is counted in nanoseconds since
`start := time.Now()`. A round trip to the registry, a channel operation and
a case of `select` take no time: time passes only when none of them can
happen, and then up to the next timer that expires. The end of the process
after the action has returned can come at any later moment; until then the
goroutine goes on. -/

/-- Where the goroutine of the poll loop stands. -/
inductive Poll where
  /-- At the top of the loop body, about to call `foundInstanceFunction`. -/
  | ready
  /-- Inside the callback, blocked in `success <- instance`. -/
  | sending (inst : Instance)
  /-- Inside `time.Sleep(1 * time.Second)`, until the time `wake`. -/
  | sleeping (wake : Nat)
deriving DecidableEq, Repr

/-- Where the action stands. -/
inductive Main where
  /-- Blocked in `select`. -/
  | selecting
  /-- The case `instance := <-success` was taken at the time `received`. -/
  | found (inst : Instance) (received : Nat)
  /-- The case `<-timeout` was taken. -/
  | timedOut
deriving DecidableEq, Repr

/-- The state of the process during the polling wait. -/
structure State where
  now : Nat
  net : Net
  poll : Poll
  main : Main
  exited : Bool
deriving DecidableEq, Repr

/-- The variables the closures of the `wait` action capture; `deadline` is the
time at which the channel of `time.After` becomes ready. -/
structure Waiter where
  appName : String
  instanceId : String
  client : Client
  deadline : Nat

/-- The state when the goroutine has been started and the action reaches
`select`. -/
def pollInit : State :=
  { now := 0, net := [], poll := Poll.ready, main := Main.selecting, exited := false }

/-- One move of the goroutine: the call of `foundInstanceFunction` with the
callback `success <- instance` (the query, then either the blocked send or
the sleep), or the end of a sleep. -/
def pollStep (w : Waiter) (s : State) : Option State :=
  match s.poll with
  | Poll.ready =>
    let r := foundInstanceFunction w.appName w.instanceId w.client s.now s.net
      (fun inst _ => some inst) (none : Option Instance)
    some { s with
      net := r.2.2
      poll := match r.2.1 with
        | some inst => Poll.sending inst
        | none => Poll.sleeping (s.now + second) }
  | Poll.sending _ => none
  | Poll.sleeping wake =>
    if wake ≤ s.now then some { s with poll := Poll.ready } else none

/-- The case `instance := <-success` of `select`: the blocked send and the
receive happen together; the callback returns and the goroutine goes on to
`time.Sleep`. -/
def receiveStep (s : State) : Option State :=
  match s.main, s.poll with
  | Main.selecting, Poll.sending inst =>
    some { s with main := Main.found inst s.now, poll := Poll.sleeping (s.now + second) }
  | _, _ => none

/-- The case `<-timeout` of `select`. -/
def timeoutStep (w : Waiter) (s : State) : Option State :=
  match s.main with
  | Main.selecting =>
    if w.deadline ≤ s.now then some { s with main := Main.timedOut } else none
  | _ => none

/-- The action has returned: `app.Run` returns or calls `os.Exit`, and the
process ends. -/
def exitStep (s : State) : Option State :=
  match s.main with
  | Main.selecting => none
  | _ => some { s with exited := true }

/-- The moves that take no time. -/
def urgent (w : Waiter) (s : State) : List State :=
  [pollStep w s, receiveStep s, timeoutStep w s].filterMap id

/-- The time at which the next timer expires: the sleep of the loop, and the
deadline while the action is in `select`. -/
def nextEvent (w : Waiter) (s : State) : Option Nat :=
  match s.poll, s.main with
  | Poll.sleeping wake, Main.selecting =>
    if s.now < wake then
      if s.now < w.deadline then some (min wake w.deadline) else some wake
    else if s.now < w.deadline then some w.deadline else none
  | Poll.sleeping wake, _ => if s.now < wake then some wake else none
  | _, Main.selecting => if s.now < w.deadline then some w.deadline else none
  | _, _ => none

/-- Time passes up to the next timer that expires. -/
def tickStep (w : Waiter) (s : State) : Option State :=
  (nextEvent w s).map fun t => { s with now := t }

/-- Everything that can happen next: nothing once the process has ended;
otherwise one of the moves that take no time, the end of the process when the
action has returned, and, when no move that takes no time is possible, the
passing of time. -/
def successors (w : Waiter) (s : State) : List State :=
  if s.exited then []
  else
    urgent w s ++ (exitStep s).toList ++
      (match urgent w s with
        | [] => (tickStep w s).toList
        | _ :: _ => [])

/-- The successor picked by `choice`; the state itself when there is none. -/
def next (w : Waiter) (choice : Nat) (s : State) : State :=
  match h : successors w s with
  | [] => s
  | _ :: _ =>
    (successors w s).get ⟨choice % (successors w s).length,
      Nat.mod_lt _ (by rw [h]; exact Nat.succ_pos _)⟩

/-- The state after the moves picked by `schedule`. -/
def exec (w : Waiter) : List Nat → State → State
  | [], s => s
  | choice :: rest, s => exec w rest (next w choice s)

/-! ## `wait` -/

/-- What the polling wait has done in the state `s`: the queries sent, the
line printed before the goroutine is started followed by what the taken case
of `select` prints (`successFunction(instance, &start)`, with `start` at
time 0), and what the action returned. -/
def pollRun (appName instanceId : String) (s : State) : Run :=
  { net := s.net
    stdout := [Output.waiting instanceId appName] ++
      (match s.main with
        | Main.found inst received => successFunction inst (some 0) received
        | _ => [])
    ending := match s.main with
      | Main.selecting => Ending.running
      | Main.found _ _ => Ending.returned
      | Main.timedOut => Ending.exitError "Wait timout exit" timeoutErrorCode }

/-- The variables of the `wait` action for the arguments `args` and the value
`time` of the flag `time`. The channel of `time.After(d)` is ready after the
duration `d`, at once when `d` is not positive. -/
def waiter (client : Client) (args : List String) (time : Int) : Waiter :=
  { appName := Args.Get args 0, instanceId := Args.Get args 1, client := client,
    deadline := (timerDuration time).toNat }

/-- The action of `wait`; `time` is the value of the flag `time`, and
`schedule` decides the polling part. -/
def waitAction (client : Client) (args : List String) (time : Int)
    (schedule : List Nat) : Run :=
  let appName := Args.Get args 0
  let instanceId := Args.Get args 1
  if appName = "" then
    { net := [], stdout := [Output.help "wait"],
      ending := Ending.helpAndExit "wait" appNameEmptyErrorCode }
  else if instanceId = "" then
    { net := [], stdout := [Output.help "wait"],
      ending := Ending.helpAndExit "wait" idEmptyErrorCode }
  else if time = 0 then
    let r := foundInstanceFunction appName instanceId client 0 []
      (fun inst out => out ++ successFunction inst none 0) []
    if r.1 then
      { net := r.2.2, stdout := r.2.1, ending := Ending.returned }
    else
      { net := r.2.2, stdout := r.2.1,
        ending := Ending.exitError "Not found" timeoutErrorCode }
  else
    pollRun appName instanceId (exec (waiter client args time) schedule pollInit)

/-! ## Scenarios -/

/-- The record of the instance `orders/i-1` with the given status. -/
def ordersInstance (status : String) : Instance :=
  { AppName := "orders", Status := status, Id := "i-1", Ip := "10.0.0.5",
    Port := { Number := 8080 } }

/-- A registry holding `orders/i-1`, which is `STARTING` and is `UP` from
`flip` seconds after the start on. -/
def flippingClient (flip : Nat) : Client :=
  { EurekaHost := "localhost", EurekaPort := 8761,
    registry := fun _ now q =>
      match q with
      | Query.GetInstanceByAppAndId "orders" "i-1" =>
        [ordersInstance (if now < flip * second then "STARTING" else "UP")]
      | _ => [] }

/-- A registry that gives the same answer to every query. -/
def constClient (answer : List Instance) : Client :=
  { EurekaHost := "localhost", EurekaPort := 8761, registry := fun _ _ _ => answer }

/-- A record whose application name holds a line feed. -/
def twoLineInstance : Instance :=
  { AppName := "a\nb", Status := "UP", Id := "i-1", Ip := "10.0.0.5",
    Port := { Number := 8080 } }

/-! ## What the statements and proofs use -/

/-- The lines of a text: the pieces ended by a line feed, and what follows the
last line feed when that is not empty. -/
def splitLines : List Char → List (List Char)
  | [] => []
  | c :: cs =>
    if c = '\n' then [] :: splitLines cs
    else
      match splitLines cs with
      | [] => [[c]]
      | line :: rest => (c :: line) :: rest

/-- The query the poll loop sends. -/
def Waiter.query (w : Waiter) : Query :=
  Query.GetInstanceByAppAndId w.appName w.instanceId

/-- The record for which the check of `foundInstanceFunction` succeeds on an
answer: the first one, when its status is "UP". -/
def firstUp : List Instance → Option Instance
  | inst :: _ => if inst.Status = "UP" then some inst else none
  | [] => none

/-- What holds in every state the polling part can reach: a sleep ends at
most a second ahead; while the action is in `select` the process runs, the
deadline has not passed, and the loop has sent one query per second: its
sleep ends, or its last query was made, at as many seconds as it has sent
queries. -/
def Invariant (w : Waiter) (s : State) : Prop :=
  (∀ wake, s.poll = Poll.sleeping wake → wake ≤ s.now + second) ∧
    (s.main = Main.selecting →
      s.exited = false ∧ s.now ≤ w.deadline ∧
        (s.poll = Poll.ready → s.net.length * second = s.now) ∧
        (∀ inst, s.poll = Poll.sending inst → s.net.length * second = s.now + second) ∧
        (∀ wake, s.poll = Poll.sleeping wake →
          wake = s.net.length * second ∧ s.now ≤ wake))

/-- A bound on the number of moves until the action leaves `select`. -/
def remaining (w : Waiter) (s : State) : Nat :=
  match s.main with
  | Main.selecting =>
    (match s.poll with
      | Poll.ready => 4 * ((w.deadline - s.now) / second) + 3
      | Poll.sending _ => 1
      | Poll.sleeping wake =>
        if wake ≤ s.now then 4 * ((w.deadline - s.now) / second) + 4
        else if wake ≤ w.deadline then 4 * ((w.deadline - wake) / second) + 5
        else if s.now < w.deadline then 2
        else 1)
  | _ => 0

/-- What holds in every reachable state when the first `N - 1` answers fail
the check and the `N`-th passes it with `inst`, before the deadline. -/
def FoundInv (w : Waiter) (N : Nat) (inst : Instance) (s : State) : Prop :=
  (∀ q ∈ s.net, q = w.query) ∧ s.main ≠ Main.timedOut ∧
    (s.main = Main.selecting →
      (s.poll = Poll.ready → s.net.length + 1 ≤ N) ∧
        (∀ wake, s.poll = Poll.sleeping wake → s.net.length + 1 ≤ N) ∧
        (∀ i, s.poll = Poll.sending i → i = inst ∧ s.net.length = N)) ∧
    (∀ i received, s.main = Main.found i received →
      i = inst ∧ received + second = N * second)

/-! ## Lemmas: rendering -/

theorem printfS_data (width : Nat) (s : String) :
    (printfS width width s).data =
      s.data.take width ++ List.replicate (width - s.length) ' ' := by
  have h : width - (s.data.take width).length = width - s.length := by
    rw [List.length_take, String.length]
    omega
  simp only [printfS, h]

theorem printfS_length (width : Nat) (s : String) :
    (printfS width width s).length = width := by
  rw [String.length, printfS_data, List.length_append, List.length_take,
    List.length_replicate, String.length]
  omega

theorem foldl_rows_data (Items : List Instance) (out : String) :
    (Items.foldl (fun out i => out ++ rowColumns i ++ " \n") out).data =
      out.data ++ (Items.map fun i => (rowColumns i).data ++ [' ', '\n']).flatten := by
  induction Items generalizing out with
  | nil => simp
  | cons i rest ih =>
    rw [List.foldl_cons, ih]
    simp [List.append_assoc]

theorem ite_ne_char {c : Prop} [Decidable c] {a b x : Char} (ha : a ≠ x) (hb : b ≠ x) :
    (if c then a else b) ≠ x := by
  split <;> assumption

theorem digitChar_ne_newline (k : Nat) : Nat.digitChar k ≠ '\n' := by
  unfold Nat.digitChar
  repeat' first
    | exact (by decide)
    | apply ite_ne_char

theorem toDigitsCore_no_newline (fuel : Nat) :
    ∀ (n : Nat) (ds : List Char), '\n' ∉ ds → '\n' ∉ Nat.toDigitsCore 10 fuel n ds := by
  induction fuel with
  | zero => intro n ds h; simpa [Nat.toDigitsCore] using h
  | succ fuel ih =>
    intro n ds h
    have hd : '\n' ∉ Nat.digitChar (n % 10) :: ds := by
      intro hmem
      rcases List.mem_cons.1 hmem with h1 | h1
      · exact digitChar_ne_newline _ h1.symm
      · exact h h1
    unfold Nat.toDigitsCore
    by_cases h0 : n / 10 = 0
    · simpa [h0] using hd
    · simp only [h0, if_false]
      exact ih _ _ hd

theorem nat_toString_no_newline (n : Nat) : '\n' ∉ (toString n).data := by
  show '\n' ∉ (Nat.repr n).data
  unfold Nat.repr Nat.toDigits
  exact toDigitsCore_no_newline _ _ _ (by simp)

theorem int_toString_no_newline (n : Int) : '\n' ∉ (toString n).data := by
  cases n with
  | ofNat m => exact nat_toString_no_newline m
  | negSucc m =>
    show '\n' ∉ ("-" ++ toString (Nat.succ m)).data
    rw [String.data_append]
    intro h
    rcases List.mem_append.1 h with h1 | h1
    · revert h1; decide
    · exact nat_toString_no_newline _ h1

theorem printfS_no_newline (width prec : Nat) (s : String) (h : '\n' ∉ s.data) :
    '\n' ∉ (printfS width prec s).data := by
  simp only [printfS, List.mem_append, List.mem_replicate, not_or]
  refine ⟨fun hm => h (List.mem_of_mem_take hm), ?_⟩
  rintro ⟨_, h2⟩
  revert h2
  decide

theorem rowColumns_no_newline (i : Instance)
    (h : '\n' ∉ i.AppName.data ∧ '\n' ∉ i.Status.data ∧ '\n' ∉ i.Id.data ∧
      '\n' ∉ i.Ip.data) :
    '\n' ∉ (rowColumns i).data := by
  simp only [rowColumns, printfD, String.data_append, List.mem_append, not_or]
  exact ⟨⟨⟨⟨printfS_no_newline _ _ _ h.1, printfS_no_newline _ _ _ h.2.1⟩,
    printfS_no_newline _ _ _ h.2.2.1⟩, printfS_no_newline _ _ _ h.2.2.2⟩,
    int_toString_no_newline _⟩

theorem rows_count_newline (Items : List Instance)
    (h : ∀ i ∈ Items, '\n' ∉ i.AppName.data ∧ '\n' ∉ i.Status.data ∧
      '\n' ∉ i.Id.data ∧ '\n' ∉ i.Ip.data) :
    (Items.map fun i => (rowColumns i).data ++ [' ', '\n']).flatten.count '\n' =
      Items.length := by
  induction Items with
  | nil => rfl
  | cons i rest ih =>
    have h1 := rowColumns_no_newline i (h i (List.mem_cons_self _ _))
    have h2 := ih fun j hj => h j (List.mem_cons_of_mem _ hj)
    rw [List.map_cons, List.flatten_cons, List.count_append, List.count_append, h2,
      List.count_eq_zero.2 h1]
    simp [List.count_cons]
    omega

theorem splitLines_line (line rest : List Char) (h : '\n' ∉ line) :
    splitLines (line ++ '\n' :: rest) = line :: splitLines rest := by
  induction line with
  | nil => simp [splitLines]
  | cons c cs ih =>
    have hc : c ≠ '\n' := fun hc => h (by simp [hc])
    have hcs : '\n' ∉ cs := fun hcs => h (List.mem_cons_of_mem _ hcs)
    have ih2 := ih hcs
    rw [List.cons_append, splitLines, if_neg hc, ih2]

theorem splitLines_rows (Items : List Instance)
    (h : ∀ i ∈ Items, '\n' ∉ i.AppName.data ∧ '\n' ∉ i.Status.data ∧
      '\n' ∉ i.Id.data ∧ '\n' ∉ i.Ip.data) :
    splitLines (Items.map fun i => (rowColumns i).data ++ [' ', '\n']).flatten =
      Items.map fun i => (rowColumns i).data ++ [' '] := by
  induction Items with
  | nil => rfl
  | cons i rest ih =>
    have h1 := rowColumns_no_newline i (h i (List.mem_cons_self _ _))
    have h2 := ih fun j hj => h j (List.mem_cons_of_mem _ hj)
    have h3 : '\n' ∉ (rowColumns i).data ++ [' '] := by
      intro hm
      rcases List.mem_append.1 hm with hm | hm
      · exact h1 hm
      · revert hm
        decide
    have h4 : (rowColumns i).data ++ [' ', '\n'] ++
          (rest.map fun i => (rowColumns i).data ++ [' ', '\n']).flatten =
        ((rowColumns i).data ++ [' ']) ++
          '\n' :: (rest.map fun i => (rowColumns i).data ++ [' ', '\n']).flatten := by
      simp
    rw [List.map_cons, List.flatten_cons, h4, splitLines_line _ _ h3, h2, List.map_cons]

/-! ## Theorems: rendering -/

/-- C9, as the claim states it, fails: for the one record whose application
name is "a", a line feed, "b", the text has three lines and not two, and on
the line that holds the port the port does not start after 83 characters. -/
theorem instancesListTemplate_line_feed_in_name :
    (splitLines (instancesListTemplate [twoLineInstance]).data).length = 3 ∧
      (splitLines (instancesListTemplate [twoLineInstance]).data).length ≠
        [twoLineInstance].length + 1 ∧
      ((splitLines (instancesListTemplate [twoLineInstance]).data).getD 2 []).drop 83 ≠
        "8080 ".data ∧
      ((splitLines (instancesListTemplate [twoLineInstance]).data).getD 2 []).drop 81 =
        "8080 ".data := by
  decide

/-- C9, amended: for a sequence of n records in which no application name,
status, id or ip address contains a line feed, the text the template writes
has exactly n+1 lines, each ended by the template's literal space: first the
header, whose columns APP NAME, STATUS, ID, IP ADDRESS, PORT are left-aligned
in widths 20, 10, 35, 18, 18, then one line per record in input order, in
which the application name, status, id and ip address are cut or padded with
spaces to exactly 20, 10, 35 and 18 characters, so that the port, in decimal
and without padding, starts after 83 characters; for no records only the
header line is written. -/
theorem instancesListTemplate_layout (Items : List Instance)
    (h : ∀ i ∈ Items, '\n' ∉ i.AppName.data ∧ '\n' ∉ i.Status.data ∧
      '\n' ∉ i.Id.data ∧ '\n' ∉ i.Ip.data) :
    splitLines (instancesListTemplate Items).data =
        (headerColumns.data ++ [' ']) ::
          Items.map (fun i => (rowColumns i).data ++ [' ']) ∧
      (splitLines (instancesListTemplate Items).data).length = Items.length + 1 ∧
      (instancesListTemplate Items).data.count '\n' = Items.length + 1 ∧
      headerColumns =
        "APP NAME            STATUS    ID                                 IP ADDRESS        PORT              " ∧
      instancesListTemplate [] = headerColumns ++ " \n" ∧
      ∀ i ∈ Items,
        rowColumns i =
            printfS 20 20 i.AppName ++ printfS 10 10 i.Status ++ printfS 35 35 i.Id ++
              printfS 18 18 i.Ip ++ toString i.Port.Number ∧
          (printfS 20 20 i.AppName).length = 20 ∧
          (printfS 10 10 i.Status).length = 10 ∧
          (printfS 35 35 i.Id).length = 35 ∧
          (printfS 18 18 i.Ip).length = 18 ∧
          (printfS 20 20 i.AppName).data =
            i.AppName.data.take 20 ++ List.replicate (20 - i.AppName.length) ' ' ∧
          (printfS 10 10 i.Status).data =
            i.Status.data.take 10 ++ List.replicate (10 - i.Status.length) ' ' ∧
          (printfS 35 35 i.Id).data =
            i.Id.data.take 35 ++ List.replicate (35 - i.Id.length) ' ' ∧
          (printfS 18 18 i.Ip).data =
            i.Ip.data.take 18 ++ List.replicate (18 - i.Ip.length) ' ' ∧
          (rowColumns i).data.take 83 =
            (printfS 20 20 i.AppName ++ printfS 10 10 i.Status ++ printfS 35 35 i.Id ++
              printfS 18 18 i.Ip).data ∧
          (rowColumns i).data.drop 83 = (toString i.Port.Number).data := by
  have hsplit : splitLines (instancesListTemplate Items).data =
      (headerColumns.data ++ [' ']) ::
        Items.map (fun i => (rowColumns i).data ++ [' ']) := by
    have h1 : '\n' ∉ headerColumns.data ++ [' '] := by decide
    have h2 : (headerColumns ++ " \n").data = (headerColumns.data ++ [' ']) ++ ['\n'] := by
      decide
    rw [instancesListTemplate, foldl_rows_data, h2, List.append_assoc, List.singleton_append,
      splitLines_line _ _ h1, splitLines_rows Items h]
  refine ⟨hsplit, ?_, ?_, by decide, rfl, ?_⟩
  · rw [hsplit]
    simp
  · rw [instancesListTemplate, foldl_rows_data, List.count_append, rows_count_newline Items h]
    have hh : (headerColumns ++ " \n").data.count '\n' = 1 := by decide
    omega
  · intro i _
    have hlen : (printfS 20 20 i.AppName ++ printfS 10 10 i.Status ++
        printfS 35 35 i.Id ++ printfS 18 18 i.Ip).data.length = 83 := by
      have h := printfS_length 20 i.AppName
      have h2 := printfS_length 10 i.Status
      have h3 := printfS_length 35 i.Id
      have h4 := printfS_length 18 i.Ip
      simp only [String.length] at h h2 h3 h4
      simp only [String.data_append, List.length_append, h, h2, h3, h4]
    have hrow : (rowColumns i).data =
        (printfS 20 20 i.AppName ++ printfS 10 10 i.Status ++ printfS 35 35 i.Id ++
          printfS 18 18 i.Ip).data ++ (toString i.Port.Number).data := by
      simp [rowColumns, printfD]
    refine ⟨rfl, printfS_length _ _, printfS_length _ _, printfS_length _ _,
      printfS_length _ _, printfS_data _ _, printfS_data _ _, printfS_data _ _,
      printfS_data _ _, ?_, ?_⟩
    · rw [hrow, ← hlen, List.take_left]
    · rw [hrow, ← hlen, List.drop_left]

/-- C9, amended, at a concrete input: the one record of `orders/i-1` gives the
header line and one line for the record. -/
theorem instancesListTemplate_layout_witness :
    (splitLines (instancesListTemplate [ordersInstance "UP"]).data).length = 2 ∧
      (rowColumns (ordersInstance "UP")).data.drop 83 = "8080".data :=
  have h := instancesListTemplate_layout [ordersInstance "UP"] (by decide)
  ⟨h.2.1, (h.2.2.2.2.2 (ordersInstance "UP") (by simp)).2.2.2.2.2.2.2.2.2.2⟩

/-! ## Theorems: the sequential commands -/

/-- C1: for every pair of flag values the `info` action sends exactly one
query, chosen by which of the two strings are empty (none: by application and
id; only the id: by application; only the application name: by id; both: list
all), hands to the template exactly the sequence the registry answered, and
returns normally, also when that sequence is empty. -/
theorem info_one_query_by_emptiness (client : Client) (appName instanceId : String) :
    ∃ q : Query,
      (infoAction client appName instanceId).net = [q] ∧
      (infoAction client appName instanceId).stdout =
        [Output.table (client.registry 0 0 q)] ∧
      (infoAction client appName instanceId).tables =
        [instancesListTemplate (client.registry 0 0 q)] ∧
      (infoAction client appName instanceId).ending = Ending.returned ∧
      (appName = "" ∧ instanceId = "" → q = Query.GetInstances) ∧
      (appName = "" ∧ instanceId ≠ "" → q = Query.GetInstanceById instanceId) ∧
      (appName ≠ "" ∧ instanceId = "" → q = Query.GetInstancesByApp appName) ∧
      (appName ≠ "" ∧ instanceId ≠ "" →
        q = Query.GetInstanceByAppAndId appName instanceId) := by
  by_cases ha : appName = "" <;> by_cases hi : instanceId = ""
  · exact ⟨Query.GetInstances, by
      simp [infoAction, ha, hi, Client.GetInstances, Client.call, Run.tables]⟩
  · exact ⟨Query.GetInstanceById instanceId, by
      simp [infoAction, ha, hi, Client.GetInstanceById, Client.call, Run.tables]⟩
  · exact ⟨Query.GetInstancesByApp appName, by
      simp [infoAction, ha, hi, Client.GetInstancesByApp, Client.call, Run.tables]⟩
  · exact ⟨Query.GetInstanceByAppAndId appName instanceId, by
      simp [infoAction, ha, hi, Client.GetInstanceByAppAndId, Client.call, Run.tables]⟩

/-- C10: the check made for every query looks at the first record of the
answer only. It returns true exactly when the answer is non-empty and the
status of its first record is the string "UP"; then the callback has been
applied once, to that first record, and otherwise not at all; the query is
logged once in both cases. An answer whose first record is "STARTING" and
whose second is "UP" counts as not found, and so does the status "up". -/
theorem foundInstanceFunction_first_record {σ : Type} (appName instanceId : String)
    (client : Client) (now : Nat) (net : Net) (function : Instance → σ → σ) (st : σ) :
    ((foundInstanceFunction appName instanceId client now net function st).1,
        (foundInstanceFunction appName instanceId client now net function st).2.1) =
        (match (client.registry net.length now
            (Query.GetInstanceByAppAndId appName instanceId)).head? with
          | some first =>
            if first.Status = "UP" then (true, function first st) else (false, st)
          | none => (false, st)) ∧
      (foundInstanceFunction appName instanceId client now net function st).2.2 =
        net ++ [Query.GetInstanceByAppAndId appName instanceId] ∧
      ((foundInstanceFunction appName instanceId client now net function st).1 = true ↔
        ∃ first rest,
          client.registry net.length now
              (Query.GetInstanceByAppAndId appName instanceId) = first :: rest ∧
            first.Status = "UP") ∧
      (∀ first rest,
        client.registry net.length now
            (Query.GetInstanceByAppAndId appName instanceId) = first :: rest →
          first.Status = "UP" →
            (foundInstanceFunction appName instanceId client now net
              (fun inst calls => calls ++ [inst]) []).2.1 = [first]) ∧
      ((foundInstanceFunction appName instanceId client now net function st).1 = false →
        (foundInstanceFunction appName instanceId client now net
          (fun inst calls => calls ++ [inst]) []).2.1 = []) ∧
      (foundInstanceFunction "orders" "i-1"
        (constClient [ordersInstance "STARTING", ordersInstance "UP"]) now net
        function st).1 = false ∧
      (foundInstanceFunction "orders" "i-1"
        (constClient [ordersInstance "up"]) now net function st).1 = false := by
  refine ⟨?_, ?_, ?_, ?_, ?_, ?_, ?_⟩
  · simp only [foundInstanceFunction, Client.GetInstanceByAppAndId, Client.call]
    cases client.registry net.length now
        (Query.GetInstanceByAppAndId appName instanceId) with
    | nil => rfl
    | cons first rest =>
      by_cases h : first.Status = "UP" <;> simp [h]
  · simp only [foundInstanceFunction, Client.GetInstanceByAppAndId, Client.call]
    cases client.registry net.length now
        (Query.GetInstanceByAppAndId appName instanceId) with
    | nil => rfl
    | cons first rest =>
      by_cases h : first.Status = "UP" <;> simp [h]
  · simp only [foundInstanceFunction, Client.GetInstanceByAppAndId, Client.call]
    cases client.registry net.length now
        (Query.GetInstanceByAppAndId appName instanceId) with
    | nil => simp
    | cons first rest =>
      by_cases h : first.Status = "UP" <;> simp [h]
  · intro first rest hresp hup
    simp [foundInstanceFunction, Client.GetInstanceByAppAndId, Client.call, hresp, hup]
  · simp only [foundInstanceFunction, Client.GetInstanceByAppAndId, Client.call]
    cases client.registry net.length now
        (Query.GetInstanceByAppAndId appName instanceId) with
    | nil => simp
    | cons first rest =>
      by_cases h : first.Status = "UP" <;> simp [h]
  · simp [foundInstanceFunction, Client.GetInstanceByAppAndId, Client.call,
      constClient, ordersInstance]
  · simp [foundInstanceFunction, Client.GetInstanceByAppAndId, Client.call,
      constClient, ordersInstance]

/-- C2, as the claim states it, fails: the answer holds a record of
`orders/i-1` whose status is "UP", but not in the first place, and the wait
with timeout 0 ends with the error "Not found". -/
theorem wait_zero_timeout_later_up_not_found :
    (∃ r ∈ [ordersInstance "STARTING", ordersInstance "UP"],
        r.AppName = "orders" ∧ r.Id = "i-1" ∧ r.Status = "UP") ∧
      (waitAction (constClient [ordersInstance "STARTING", ordersInstance "UP"])
        ["orders", "i-1"] 0 []).ending = Ending.exitError "Not found" 2 := by
  constructor
  · exact ⟨ordersInstance "UP", by simp, rfl, rfl, rfl⟩
  · decide

/-- C2, amended: with both identifiers non-empty, the wait with timeout 0
sends exactly one query, by application and id. If the answer is non-empty
and the status of its first record is "UP", it prints the table of that
record without an elapsed time and returns normally; otherwise it prints
nothing and ends with the error "Not found". It never ends with the error
of the deadline, has always returned, prints no waiting line, and does not
depend on the schedule of the polling part, which is never started. -/
theorem wait_zero_timeout_first_record (client : Client) (args : List String)
    (schedule : List Nat) (ha : Args.Get args 0 ≠ "") (hi : Args.Get args 1 ≠ "") :
    (waitAction client args 0 schedule).net =
        [Query.GetInstanceByAppAndId (Args.Get args 0) (Args.Get args 1)] ∧
      (∀ first rest,
        client.registry 0 0
            (Query.GetInstanceByAppAndId (Args.Get args 0) (Args.Get args 1)) =
            first :: rest →
          first.Status = "UP" →
            (waitAction client args 0 schedule).stdout = [Output.table [first]] ∧
              (waitAction client args 0 schedule).ending = Ending.returned) ∧
      ((¬ ∃ first rest,
          client.registry 0 0
              (Query.GetInstanceByAppAndId (Args.Get args 0) (Args.Get args 1)) =
              first :: rest ∧ first.Status = "UP") →
        (waitAction client args 0 schedule).stdout = [] ∧
          (waitAction client args 0 schedule).ending =
            Ending.exitError "Not found" timeoutErrorCode) ∧
      (waitAction client args 0 schedule).ending ≠
        Ending.exitError "Wait timout exit" timeoutErrorCode ∧
      (waitAction client args 0 schedule).ending ≠ Ending.running ∧
      (∀ instanceId appName,
        Output.waiting instanceId appName ∉ (waitAction client args 0 schedule).stdout) ∧
      waitAction client args 0 schedule = waitAction client args 0 [] := by
  simp only [waitAction, if_neg ha, if_neg hi, foundInstanceFunction,
    Client.GetInstanceByAppAndId, Client.call, successFunction, List.length_nil]
  cases client.registry 0 0
      (Query.GetInstanceByAppAndId (Args.Get args 0) (Args.Get args 1)) with
  | nil => simp
  | cons first rest =>
    by_cases h : first.Status = "UP" <;> simp [h]

/-- C2, amended, at a concrete input: `orders/i-1` is "UP" in the first
record of the answer. -/
theorem wait_zero_timeout_first_record_witness :
    (waitAction (constClient [ordersInstance "UP"]) ["orders", "i-1"] 0 []).stdout =
        [Output.table [ordersInstance "UP"]] ∧
      (waitAction (constClient [ordersInstance "UP"]) ["orders", "i-1"] 0 []).ending =
        Ending.returned :=
  (wait_zero_timeout_first_record (constClient [ordersInstance "UP"])
    ["orders", "i-1"] [] (by decide) (by decide)).2.1
    (ordersInstance "UP") [] rfl rfl

/-- C8: for `wait` and `info url` and every argument list, an empty or
missing first argument ends the command with exit code 5, otherwise an empty
or missing second argument ends it with exit code 4, in both cases with no
query sent; a query is sent only when both identifiers are non-empty. -/
theorem identifier_checks (client : Client) (args : List String) (time : Int)
    (schedule : List Nat) :
    (Args.Get args 0 = "" →
      (urlAction client args).ending.exitCode = some 5 ∧
        (urlAction client args).net = [] ∧
        (waitAction client args time schedule).ending.exitCode = some 5 ∧
        (waitAction client args time schedule).net = []) ∧
      (Args.Get args 0 ≠ "" → Args.Get args 1 = "" →
        (urlAction client args).ending.exitCode = some 4 ∧
          (urlAction client args).net = [] ∧
          (waitAction client args time schedule).ending.exitCode = some 4 ∧
          (waitAction client args time schedule).net = []) ∧
      ((urlAction client args).net ≠ [] →
        Args.Get args 0 ≠ "" ∧ Args.Get args 1 ≠ "") ∧
      ((waitAction client args time schedule).net ≠ [] →
        Args.Get args 0 ≠ "" ∧ Args.Get args 1 ≠ "") ∧
      (Args.Get args 0 ≠ "" → Args.Get args 1 ≠ "" →
        (urlAction client args).net =
          [Query.GetInstanceByAppAndId (Args.Get args 0) (Args.Get args 1)]) ∧
      (urlAction client []).ending.exitCode = some 5 ∧
      (waitAction client [] time schedule).ending.exitCode = some 5 ∧
      (urlAction client ["orders"]).ending.exitCode = some 4 ∧
      (waitAction client ["orders"] time schedule).ending.exitCode = some 4 := by
  refine ⟨?_, ?_, ?_, ?_, ?_, ?_, ?_, ?_, ?_⟩
  · intro ha
    simp [urlAction, waitAction, ha, Ending.exitCode, appNameEmptyErrorCode]
  · intro ha hi
    simp [urlAction, waitAction, ha, hi, Ending.exitCode, idEmptyErrorCode]
  · intro h
    by_cases ha : Args.Get args 0 = ""
    · simp [urlAction, ha] at h
    · by_cases hi : Args.Get args 1 = ""
      · simp [urlAction, ha, hi] at h
      · exact ⟨ha, hi⟩
  · intro h
    by_cases ha : Args.Get args 0 = ""
    · simp [waitAction, ha] at h
    · by_cases hi : Args.Get args 1 = ""
      · simp [waitAction, ha, hi] at h
      · exact ⟨ha, hi⟩
  · intro ha hi
    simp only [urlAction, if_neg ha, if_neg hi, Client.GetInstanceByAppAndId, Client.call]
    cases client.registry ([] : Net).length 0
        (Query.GetInstanceByAppAndId (Args.Get args 0) (Args.Get args 1)) <;> rfl
  · simp [urlAction, Args.Get, Ending.exitCode, appNameEmptyErrorCode]
  · simp [waitAction, Args.Get, Ending.exitCode, appNameEmptyErrorCode]
  · simp [urlAction, Args.Get, Ending.exitCode, idEmptyErrorCode]
  · simp [waitAction, Args.Get, Ending.exitCode, idEmptyErrorCode]

/-! ## Lemmas: the polling part -/

theorem timerDuration_small (T : Nat) (h : T ≤ 9223372036) :
    (timerDuration T).toNat = T * second := by
  have h1 : (1000000000 * (T : Int) + 9223372036854775808) % 18446744073709551616 =
      1000000000 * (T : Int) + 9223372036854775808 :=
    Int.emod_eq_of_lt (by omega) (by omega)
  unfold timerDuration wrapInt64 second
  rw [h1]
  omega

theorem timerDuration_le (time : Int) (h : 0 < time) :
    (timerDuration time).toNat / second ≤ time.toNat := by
  by_cases hs : time ≤ 9223372036
  · obtain ⟨T, rfl⟩ : ∃ T : Nat, time = T := ⟨time.toNat, by omega⟩
    rw [timerDuration_small T (by omega)]
    unfold second
    simp
  · have h1 := Int.emod_lt_of_pos (1000000000 * time + 9223372036854775808)
      (show (0 : Int) < 18446744073709551616 by decide)
    unfold timerDuration wrapInt64 second
    omega

theorem second_pos : 0 < second := by
  unfold second
  omega

theorem waiter_deadline (client : Client) (args : List String) (time : Int) :
    (waiter client args time).deadline = (timerDuration time).toNat :=
  rfl

theorem mem_urgent {w : Waiter} {s t : State} :
    t ∈ urgent w s ↔
      pollStep w s = some t ∨ receiveStep s = some t ∨ timeoutStep w s = some t := by
  simp only [urgent, List.mem_filterMap, id, List.mem_cons, List.mem_singleton,
    List.not_mem_nil, or_false, exists_eq_right]
  constructor <;> rintro (h | h | h) <;> simp [h]

theorem urgent_eq_nil {w : Waiter} {s : State} :
    urgent w s = [] ↔
      pollStep w s = none ∧ receiveStep s = none ∧ timeoutStep w s = none := by
  constructor
  · intro h
    have hmem : ∀ t, t ∉ urgent w s := by simp [h]
    simp only [mem_urgent, not_or] at hmem
    refine ⟨?_, ?_, ?_⟩ <;>
      · rw [Option.eq_none_iff_forall_not_mem]
        intro t ht
        have := hmem t
        simp_all
  · rintro ⟨h1, h2, h3⟩
    simp [urgent, h1, h2, h3]

theorem mem_successors {w : Waiter} {s t : State} :
    t ∈ successors w s ↔
      s.exited = false ∧
        (t ∈ urgent w s ∨ exitStep s = some t ∨
          (urgent w s = [] ∧ tickStep w s = some t)) := by
  unfold successors
  cases hex : s.exited with
  | true => simp
  | false =>
    cases hi : urgent w s with
    | nil => simp [Option.mem_toList, eq_comm]
    | cons a l => simp [Option.mem_toList, eq_comm, or_assoc]

theorem next_mem (w : Waiter) (choice : Nat) (s : State) :
    next w choice s ∈ successors w s ∨ (successors w s = [] ∧ next w choice s = s) := by
  unfold next
  split
  · next h => exact Or.inr ⟨h, rfl⟩
  · exact Or.inl (List.get_mem _ _ _)

theorem firstUp_eq_some {l : List Instance} {inst : Instance} :
    firstUp l = some inst ↔ ∃ rest, l = inst :: rest ∧ inst.Status = "UP" := by
  cases l with
  | nil => simp [firstUp]
  | cons a rest =>
    by_cases h : a.Status = "UP"
    · simp only [firstUp, if_pos h, Option.some.injEq, List.cons.injEq]
      constructor
      · rintro rfl
        exact ⟨rest, ⟨rfl, rfl⟩, h⟩
      · rintro ⟨_, ⟨h1, _⟩, _⟩
        exact h1
    · simp only [firstUp, if_neg h, List.cons.injEq]
      constructor
      · intro h1
        cases h1
      · rintro ⟨_, ⟨rfl, _⟩, h2⟩
        exact absurd h2 h

theorem firstUp_eq_none {l : List Instance} :
    firstUp l = none ↔ ¬ ∃ inst rest, l = inst :: rest ∧ inst.Status = "UP" := by
  rw [Option.eq_none_iff_forall_not_mem]
  constructor
  · rintro h ⟨inst, rest, h1, h2⟩
    exact h inst (firstUp_eq_some.2 ⟨rest, h1, h2⟩)
  · intro h inst hi
    obtain ⟨rest, h1, h2⟩ := firstUp_eq_some.1 hi
    exact h ⟨inst, rest, h1, h2⟩

theorem pollStep_ready {w : Waiter} {s : State} (h : s.poll = Poll.ready) :
    pollStep w s = some { s with
      net := s.net ++ [w.query]
      poll := match firstUp (w.client.registry s.net.length s.now w.query) with
        | some inst => Poll.sending inst
        | none => Poll.sleeping (s.now + second) } := by
  simp only [pollStep, h, foundInstanceFunction, Client.GetInstanceByAppAndId, Client.call,
    Waiter.query]
  cases hr : w.client.registry s.net.length s.now
      (Query.GetInstanceByAppAndId w.appName w.instanceId) with
  | nil => simp [firstUp]
  | cons a rest =>
    by_cases hup : a.Status = "UP" <;> simp [firstUp, hup]

/-- Every move, spelled out. -/
theorem successors_cases {w : Waiter} {s t : State} (h : t ∈ successors w s) :
    s.exited = false ∧
      ((s.poll = Poll.ready ∧
          t = { s with
            net := s.net ++ [w.query]
            poll := match firstUp (w.client.registry s.net.length s.now w.query) with
              | some inst => Poll.sending inst
              | none => Poll.sleeping (s.now + second) }) ∨
        (∃ wake, s.poll = Poll.sleeping wake ∧ wake ≤ s.now ∧
          t = { s with poll := Poll.ready }) ∨
        (∃ inst, s.main = Main.selecting ∧ s.poll = Poll.sending inst ∧
          t = { s with
            main := Main.found inst s.now, poll := Poll.sleeping (s.now + second) }) ∨
        (s.main = Main.selecting ∧ w.deadline ≤ s.now ∧
          t = { s with main := Main.timedOut }) ∨
        (s.main ≠ Main.selecting ∧ t = { s with exited := true }) ∨
        (∃ wake, s.main = Main.selecting ∧ s.now < w.deadline ∧
          s.poll = Poll.sleeping wake ∧ s.now < wake ∧
          t = { s with now := min wake w.deadline }) ∨
        (∃ wake, s.main ≠ Main.selecting ∧ s.poll = Poll.sleeping wake ∧ s.now < wake ∧
          t = { s with now := wake })) := by
  rw [mem_successors] at h
  obtain ⟨hex, h⟩ := h
  refine ⟨hex, ?_⟩
  rcases h with h | h | ⟨hnil, h⟩
  · rw [mem_urgent] at h
    rcases h with h | h | h
    · cases hp : s.poll with
      | ready =>
        rw [pollStep_ready hp] at h
        exact Or.inl ⟨rfl, (Option.some.inj h).symm⟩
      | sending inst => simp [pollStep, hp] at h
      | sleeping wake =>
        simp only [pollStep, hp] at h
        by_cases hw : wake ≤ s.now
        · rw [if_pos hw] at h
          exact Or.inr (Or.inl ⟨wake, rfl, hw, (Option.some.inj h).symm⟩)
        · rw [if_neg hw] at h
          cases h
    · cases hm : s.main <;> cases hp : s.poll <;> simp [receiveStep, hm, hp] at h
      next inst =>
        exact Or.inr (Or.inr (Or.inl ⟨inst, rfl, rfl, h.symm⟩))
    · cases hm : s.main <;> simp [timeoutStep, hm] at h
      exact Or.inr (Or.inr (Or.inr (Or.inl ⟨rfl, h.1, h.2.symm⟩)))
  · cases hm : s.main <;> simp [exitStep, hm] at h
    · exact Or.inr (Or.inr (Or.inr (Or.inr (Or.inl ⟨by simp, h.symm⟩))))
    · exact Or.inr (Or.inr (Or.inr (Or.inr (Or.inl ⟨by simp, h.symm⟩))))
  · rw [urgent_eq_nil] at hnil
    obtain ⟨h1, h2, h3⟩ := hnil
    cases hp : s.poll with
    | ready => rw [pollStep_ready hp] at h1; cases h1
    | sending inst =>
      cases hm : s.main with
      | selecting => simp [receiveStep, hm, hp] at h2
      | found i r => simp [tickStep, nextEvent, hm, hp] at h
      | timedOut => simp [tickStep, nextEvent, hm, hp] at h
    | sleeping wake =>
      have hw : s.now < wake := by
        simp [pollStep, hp] at h1
        exact h1
      cases hm : s.main with
      | selecting =>
        have hd : s.now < w.deadline := by
          simp [timeoutStep, hm] at h3
          exact h3
        simp only [tickStep, nextEvent, hm, hp, if_pos hw, if_pos hd, Option.map_some',
          Option.some.injEq] at h
        exact Or.inr (Or.inr (Or.inr (Or.inr (Or.inr (Or.inl
          ⟨wake, rfl, hd, rfl, hw, h.symm⟩)))))
      | found i r =>
        simp only [tickStep, nextEvent, hm, hp, if_pos hw, Option.map_some',
          Option.some.injEq] at h
        exact Or.inr (Or.inr (Or.inr (Or.inr (Or.inr (Or.inr
          ⟨wake, by simp, rfl, hw, h.symm⟩)))))
      | timedOut =>
        simp only [tickStep, nextEvent, hm, hp, if_pos hw, Option.map_some',
          Option.some.injEq] at h
        exact Or.inr (Or.inr (Or.inr (Or.inr (Or.inr (Or.inr
          ⟨wake, by simp, rfl, hw, h.symm⟩)))))

theorem invariant_init (w : Waiter) : Invariant w pollInit := by
  simp [Invariant, pollInit]

theorem invariant_step {w : Waiter} {s t : State} (hinv : Invariant w s)
    (h : t ∈ successors w s) : Invariant w t := by
  obtain ⟨hsleep, hsel⟩ := hinv
  obtain ⟨hex, h⟩ := successors_cases h
  rcases h with ⟨hp, rfl⟩ | ⟨wake, hp, hw, rfl⟩ | ⟨inst, hm, hp, rfl⟩ | ⟨hm, hd, rfl⟩ |
    ⟨hm, rfl⟩ | ⟨wake, hm, hd, hp, hw, rfl⟩ | ⟨wake, hm, hp, hw, rfl⟩
  · -- the query
    refine ⟨?_, ?_⟩
    · intro wake hwake
      cases hf : firstUp (w.client.registry s.net.length s.now w.query) <;>
        simp [hf] at hwake
      show wake ≤ s.now + second
      omega
    · intro hm
      have hs := hsel hm
      have hlen := hs.2.2.1 hp
      refine ⟨hex, hs.2.1, ?_, ?_, ?_⟩
      · cases hf : firstUp (w.client.registry s.net.length s.now w.query) <;> simp
      · intro inst _
        show (s.net ++ [w.query]).length * second = s.now + second
        rw [List.length_append, List.length_singleton, Nat.add_mul, hlen, Nat.one_mul]
      · intro wake hwake
        cases hf : firstUp (w.client.registry s.net.length s.now w.query) <;>
          simp [hf] at hwake
        show wake = (s.net ++ [w.query]).length * second ∧ s.now ≤ wake
        rw [List.length_append, List.length_singleton, Nat.add_mul, hlen, Nat.one_mul]
        omega
  · -- the end of a sleep
    refine ⟨by simp, ?_⟩
    intro hm
    have hs := hsel hm
    refine ⟨hex, hs.2.1, ?_, by simp, by simp⟩
    intro _
    have h1 := hs.2.2.2.2 wake hp
    show s.net.length * second = s.now
    omega
  · -- the success case
    exact ⟨by simp, by simp⟩
  · -- the timeout case
    exact ⟨hsleep, by simp⟩
  · -- the end of the process
    refine ⟨hsleep, ?_⟩
    intro h
    exact absurd h hm
  · -- time passes while the action is in select
    have hs := hsel hm
    have h1 := hs.2.2.2.2 wake hp
    have h2 := hsleep wake hp
    refine ⟨?_, ?_⟩
    · intro wake2 hw2
      change s.poll = Poll.sleeping wake2 at hw2
      rw [hp] at hw2
      cases hw2
      show wake ≤ min wake w.deadline + second
      omega
    · intro _
      refine ⟨hex, ?_, ?_, ?_, ?_⟩
      · show min wake w.deadline ≤ w.deadline
        omega
      · intro h3
        change s.poll = Poll.ready at h3
        rw [hp] at h3
        cases h3
      · intro inst h3
        change s.poll = Poll.sending inst at h3
        rw [hp] at h3
        cases h3
      · intro wake2 h3
        change s.poll = Poll.sleeping wake2 at h3
        rw [hp] at h3
        cases h3
        show wake = s.net.length * second ∧ min wake w.deadline ≤ wake
        omega
  · -- time passes after the action has returned
    refine ⟨?_, ?_⟩
    · intro wake2 hw2
      change s.poll = Poll.sleeping wake2 at hw2
      rw [hp] at hw2
      cases hw2
      show wake ≤ wake + second
      omega
    · intro h3
      exact absurd h3 hm

theorem remaining_step {w : Waiter} {s t : State} (hinv : Invariant w s)
    (hsel : s.main = Main.selecting) (h : t ∈ successors w s) :
    remaining w t < remaining w s := by
  obtain ⟨hsleep, hs⟩ := hinv
  have hs := hs hsel
  obtain ⟨-, h⟩ := successors_cases h
  rcases h with ⟨hp, rfl⟩ | ⟨wake, hp, hw, rfl⟩ | ⟨inst, hm, hp, rfl⟩ | ⟨hm, hd, rfl⟩ |
    ⟨hm, rfl⟩ | ⟨wake, hm, hd, hp, hw, rfl⟩ | ⟨wake, hm, hp, hw, rfl⟩
  · cases hf : firstUp (w.client.registry s.net.length s.now w.query) with
    | some i => simp [remaining, hsel, hp]
    | none =>
      simp only [remaining, hsel, hp, second]
      split_ifs <;> omega
  · simp only [remaining, hsel, hp, if_pos hw]
    omega
  · simp [remaining, hsel, hp]
  · cases hp : s.poll with
    | ready => simp [remaining, hsel, hp]
    | sending i => simp [remaining, hsel, hp]
    | sleeping wake =>
      simp only [remaining, hsel, hp]
      split_ifs <;> omega
  · exact absurd hsel hm
  · have h2 : ¬ wake ≤ s.now := by omega
    by_cases hwd : wake ≤ w.deadline
    · have hmin : min wake w.deadline = wake := by omega
      simp only [remaining, hsel, hp, if_neg h2, hmin, if_pos hwd, le_refl, if_true]
      omega
    · have hmin : min wake w.deadline = w.deadline := by omega
      have h3 : ¬ wake ≤ w.deadline := hwd
      simp only [remaining, hsel, hp, if_neg h2, hmin, if_neg h3, if_pos hd,
        lt_irrefl, if_false]
      omega
  · exact absurd hsel hm

theorem remaining_pos {w : Waiter} {s : State} (hsel : s.main = Main.selecting) :
    0 < remaining w s := by
  cases hp : s.poll with
  | ready => simp [remaining, hsel, hp]
  | sending i => simp [remaining, hsel, hp]
  | sleeping wake =>
    simp only [remaining, hsel, hp]
    split_ifs <;> omega

theorem main_step {w : Waiter} {s t : State} (hm : s.main ≠ Main.selecting)
    (h : t ∈ successors w s) : t.main = s.main := by
  obtain ⟨-, h⟩ := successors_cases h
  rcases h with ⟨_, rfl⟩ | ⟨_, _, _, rfl⟩ | ⟨_, h1, _, rfl⟩ | ⟨h1, _, rfl⟩ |
    ⟨_, rfl⟩ | ⟨_, h1, _, _, _, rfl⟩ | ⟨_, _, _, _, rfl⟩
  · rfl
  · rfl
  · exact absurd h1 hm
  · exact absurd h1 hm
  · rfl
  · exact absurd h1 hm
  · rfl

theorem successors_ne_nil {w : Waiter} {s : State} (hex : s.exited = false) :
    successors w s ≠ [] := by
  intro hnil
  have hno : ∀ t, t ∉ successors w s := by simp [hnil]
  simp only [mem_successors, hex, true_and, not_or, not_and] at hno
  cases hm : s.main with
  | found i r => exact (hno { s with exited := true }).2.1 (by simp [exitStep, hm])
  | timedOut => exact (hno { s with exited := true }).2.1 (by simp [exitStep, hm])
  | selecting =>
    cases hu : urgent w s with
    | cons a l => exact (hno a).1 (by simp [hu])
    | nil =>
      obtain ⟨h1, h2, h3⟩ := urgent_eq_nil.1 hu
      cases hp : s.poll with
      | ready => rw [pollStep_ready hp] at h1; cases h1
      | sending inst => simp [receiveStep, hm, hp] at h2
      | sleeping wake =>
        have hw : s.now < wake := by
          simp [pollStep, hp] at h1
          exact h1
        have hd : s.now < w.deadline := by
          simp [timeoutStep, hm] at h3
          exact h3
        exact (hno { s with now := min wake w.deadline }).2.2 hu
          (by simp [tickStep, nextEvent, hm, hp, hw, hd])

theorem exec_append (w : Waiter) (a b : List Nat) (s : State) :
    exec w (a ++ b) s = exec w b (exec w a s) := by
  induction a generalizing s with
  | nil => rfl
  | cons c rest ih => exact ih (next w c s)

theorem invariant_next {w : Waiter} {s : State} (hinv : Invariant w s) (choice : Nat) :
    Invariant w (next w choice s) := by
  rcases next_mem w choice s with h | ⟨_, h⟩
  · exact invariant_step hinv h
  · rw [h]
    exact hinv

/-- Induction along a schedule for a property kept by every move. -/
theorem exec_induction (w : Waiter) (P : State → Prop)
    (hstep : ∀ s t, Invariant w s → P s → t ∈ successors w s → P t) :
    ∀ (schedule : List Nat) (s : State), Invariant w s → P s →
      Invariant w (exec w schedule s) ∧ P (exec w schedule s) := by
  intro schedule
  induction schedule with
  | nil => exact fun s hinv hp => ⟨hinv, hp⟩
  | cons c rest ih =>
    intro s hinv hp
    refine ih (next w c s) (invariant_next hinv c) ?_
    rcases next_mem w c s with h | ⟨_, h⟩
    · exact hstep s _ hinv hp h
    · rw [h]
      exact hp

theorem invariant_exec (w : Waiter) (schedule : List Nat) :
    Invariant w (exec w schedule pollInit) :=
  (exec_induction w (fun _ => True) (fun _ _ _ _ _ => trivial) schedule pollInit
    (invariant_init w) trivial).1

theorem main_exec {w : Waiter} (schedule : List Nat) {s : State}
    (hm : s.main ≠ Main.selecting) : (exec w schedule s).main = s.main := by
  induction schedule generalizing s with
  | nil => rfl
  | cons c rest ih =>
    have h1 : (next w c s).main = s.main := by
      rcases next_mem w c s with h | ⟨_, h⟩
      · exact main_step hm h
      · rw [h]
    show (exec w rest (next w c s)).main = s.main
    rw [ih (by rw [h1]; exact hm), h1]

/-- Every schedule that is long enough takes the action out of `select`. -/
theorem exec_decided {w : Waiter} (schedule : List Nat) {s : State}
    (hinv : Invariant w s) (hlen : remaining w s ≤ schedule.length) :
    (exec w schedule s).main ≠ Main.selecting := by
  induction schedule generalizing s with
  | nil =>
    intro hsel
    change s.main = Main.selecting at hsel
    have := @remaining_pos w s hsel
    simp only [List.length_nil] at hlen
    omega
  | cons c rest ih =>
    by_cases hsel : s.main = Main.selecting
    · have hmem : next w c s ∈ successors w s := by
        rcases next_mem w c s with h | ⟨h, _⟩
        · exact h
        · exact absurd h (successors_ne_nil (hinv.2 hsel).1)
      have hlt := remaining_step hinv hsel hmem
      refine ih (invariant_step hinv hmem) ?_
      simp only [List.length_cons] at hlen
      omega
    · rw [show exec w (c :: rest) s = exec w rest (exec w [c] s) from rfl,
        main_exec rest (by rw [main_exec [c] hsel]; exact hsel), main_exec [c] hsel]
      exact hsel

theorem remaining_init (w : Waiter) :
    remaining w pollInit = 4 * (w.deadline / second) + 3 := by
  simp [remaining, pollInit]

theorem waitAction_polling (client : Client) (args : List String) (time : Int)
    (schedule : List Nat) (ha : Args.Get args 0 ≠ "") (hi : Args.Get args 1 ≠ "")
    (ht : time ≠ 0) :
    waitAction client args time schedule =
      pollRun (Args.Get args 0) (Args.Get args 1)
        (exec (waiter client args time) schedule pollInit) := by
  simp only [waitAction, if_neg ha, if_neg hi, if_neg ht]

theorem pollRun_of_main_eq {appName instanceId : String} {s t : State}
    (h : t.main = s.main) :
    (pollRun appName instanceId t).ending = (pollRun appName instanceId s).ending ∧
      (pollRun appName instanceId t).stdout = (pollRun appName instanceId s).stdout := by
  simp only [pollRun, h, and_self]

/-! ## Theorems: the polling wait -/

/-- C5: in the polling wait (both identifiers non-empty, a positive timeout),
whatever the schedule of the deadline, the poll loop and the action: a
schedule that is long enough ends with exactly one of the two outcomes,
either the normal return after printing the elapsed time and the table of one
instance, or the error "Wait timout exit" with nothing printed after the
waiting line; and once the action has returned, no later move changes what it
returned or printed. When the deadline and a blocked send are ready in the
same state, the two possible moves are the success case and the timeout case,
each giving one outcome. -/
theorem polling_exactly_one_outcome (client : Client) (args : List String) (time : Int)
    (schedule more : List Nat) (ha : Args.Get args 0 ≠ "") (hi : Args.Get args 1 ≠ "")
    (ht : 0 < time) :
    (4 * time.toNat + 3 ≤ schedule.length →
      ((waitAction client args time schedule).ending = Ending.returned ∧
          ∃ inst elapsed,
            (waitAction client args time schedule).stdout =
              [Output.waiting (Args.Get args 1) (Args.Get args 0), Output.took elapsed,
                Output.table [inst]]) ∨
        ((waitAction client args time schedule).ending =
            Ending.exitError "Wait timout exit" timeoutErrorCode ∧
          (waitAction client args time schedule).stdout =
            [Output.waiting (Args.Get args 1) (Args.Get args 0)])) ∧
      ((waitAction client args time schedule).ending ≠ Ending.running →
        (waitAction client args time (schedule ++ more)).ending =
            (waitAction client args time schedule).ending ∧
          (waitAction client args time (schedule ++ more)).stdout =
            (waitAction client args time schedule).stdout) ∧
      (∀ (s : State) (inst : Instance),
        s.exited = false → s.main = Main.selecting → s.poll = Poll.sending inst →
          (waiter client args time).deadline ≤ s.now →
            successors (waiter client args time) s =
              [{ s with
                  main := Main.found inst s.now, poll := Poll.sleeping (s.now + second) },
                { s with main := Main.timedOut }]) := by
  have ht0 : time ≠ 0 := by omega
  rw [waitAction_polling client args time schedule ha hi ht0,
    waitAction_polling client args time (schedule ++ more) ha hi ht0]
  obtain ⟨w, hw⟩ : ∃ w : Waiter, w = waiter client args time := ⟨_, rfl⟩
  have hdl : w.deadline / second ≤ time.toNat := by
    rw [hw]
    exact timerDuration_le time ht
  rw [← hw]
  refine ⟨?_, ?_, ?_⟩
  · intro hlen
    have hdec : (exec w schedule pollInit).main ≠ Main.selecting :=
      exec_decided schedule (invariant_init w) (by rw [remaining_init]; omega)
    cases hm : (exec w schedule pollInit).main with
    | selecting => exact absurd hm hdec
    | found inst received =>
      left
      simp only [pollRun, hm, successFunction, true_and]
      exact ⟨inst, received - 0, rfl⟩
    | timedOut =>
      right
      simp [pollRun, hm]
  · intro hrun
    rw [exec_append]
    apply pollRun_of_main_eq
    apply main_exec
    intro hsel
    apply hrun
    simp [pollRun, hsel]
  · intro s inst hex hm hp hd
    simp [successors, hex, urgent, pollStep, receiveStep, timeoutStep, exitStep, hm, hp, hd]

/-- C5 at a concrete input: `orders/i-1`, never "UP", timeout 1 second, and
the schedule that always picks the first possible move. -/
theorem polling_exactly_one_outcome_witness :
    (waitAction (constClient [ordersInstance "STARTING"]) ["orders", "i-1"] 1
        (List.replicate 7 0)).ending =
      Ending.exitError "Wait timout exit" timeoutErrorCode ∧
    (waitAction (constClient [ordersInstance "STARTING"]) ["orders", "i-1"] 1
        (List.replicate 7 0 ++ [0])).ending =
      (waitAction (constClient [ordersInstance "STARTING"]) ["orders", "i-1"] 1
        (List.replicate 7 0)).ending := by
  have h := polling_exactly_one_outcome (constClient [ordersInstance "STARTING"])
    ["orders", "i-1"] 1 (List.replicate 7 0) [0] (by decide) (by decide) (by decide)
  exact ⟨by decide, (h.2.1 (by decide)).1⟩

theorem foundInv_step {w : Waiter} {N : Nat} {inst : Instance} (hN : 1 ≤ N)
    (hlt : (N - 1) * second < w.deadline)
    (hfirst : ∀ k, k + 1 < N → firstUp (w.client.registry k (k * second) w.query) = none)
    (hNth : firstUp (w.client.registry (N - 1) ((N - 1) * second) w.query) = some inst)
    (s t : State) (hinv : Invariant w s) (hP : FoundInv w N inst s)
    (h : t ∈ successors w s) : FoundInv w N inst t := by
  obtain ⟨hsleep, hsel⟩ := hinv
  obtain ⟨hnet, hnt, hPsel, hPfound⟩ := hP
  obtain ⟨hex, h⟩ := successors_cases h
  rcases h with ⟨hp, rfl⟩ | ⟨wake, hp, hw, rfl⟩ | ⟨i, hm, hp, rfl⟩ | ⟨hm, hd, rfl⟩ |
    ⟨hm, rfl⟩ | ⟨wake, hm, hd, hp, hw, rfl⟩ | ⟨wake, hm, hp, hw, rfl⟩
  · -- the query
    have hnet2 : ∀ q ∈ s.net ++ [w.query], q = w.query := by
      intro q hq
      rcases List.mem_append.1 hq with h1 | h1
      · exact hnet q h1
      · simpa using h1
    refine ⟨hnet2, hnt, ?_, hPfound⟩
    intro hm
    change s.main = Main.selecting at hm
    have hlen : s.net.length * second = s.now := (hsel hm).2.2.1 hp
    have hle : s.net.length + 1 ≤ N := (hPsel hm).1 hp
    by_cases hlast : s.net.length + 1 = N
    · have hidx : s.net.length = N - 1 := by omega
      have hf : firstUp (w.client.registry s.net.length s.now w.query) = some inst := by
        rw [← hlen, hidx]
        exact hNth
      rw [hf]
      refine ⟨by simp, by simp, ?_⟩
      intro i h1
      simp at h1
      exact ⟨h1.symm, by simp [hlast]⟩
    · have hf : firstUp (w.client.registry s.net.length s.now w.query) = none := by
        rw [← hlen]
        exact hfirst s.net.length (by omega)
      rw [hf]
      refine ⟨by simp, ?_, by simp⟩
      intro wake _
      show (s.net ++ [w.query]).length + 1 ≤ N
      rw [List.length_append, List.length_singleton]
      omega
  · -- the end of a sleep
    refine ⟨hnet, hnt, ?_, hPfound⟩
    intro hm
    refine ⟨?_, by simp, by simp⟩
    intro _
    exact (hPsel hm).2.1 wake hp
  · -- the success case
    have h1 := (hPsel hm).2.2 i hp
    have h2 := (hsel hm).2.2.2.1 i hp
    refine ⟨hnet, by simp, by simp, ?_⟩
    intro j received h3
    simp at h3
    refine ⟨h3.1 ▸ h1.1, ?_⟩
    rw [← h3.2, ← h1.2]
    exact h2.symm
  · -- the timeout case
    exfalso
    have hs := hsel hm
    have hPs := hPsel hm
    cases hp : s.poll with
    | ready =>
      have h1 := hs.2.2.1 hp
      have h2 := hPs.1 hp
      have h3 : s.net.length * second ≤ (N - 1) * second :=
        Nat.mul_le_mul_right _ (by omega)
      omega
    | sending i =>
      have h1 := hs.2.2.2.1 i hp
      have h2 := (hPs.2.2 i hp).2
      have h3 : s.net.length * second = (N - 1) * second + second := by
        rw [h2]
        obtain ⟨M, rfl⟩ : ∃ M, N = M + 1 := ⟨N - 1, by omega⟩
        simp [Nat.add_mul]
      omega
    | sleeping wake =>
      have h1 := hs.2.2.2.2 wake hp
      have h2 := hPs.2.1 wake hp
      have h3 : s.net.length * second ≤ (N - 1) * second :=
        Nat.mul_le_mul_right _ (by omega)
      omega
  · -- the end of the process
    refine ⟨hnet, hnt, ?_, hPfound⟩
    intro h1
    exact absurd h1 hm
  · -- time passes while the action is in select
    exact ⟨hnet, hnt, hPsel, hPfound⟩
  · -- time passes after the action has returned
    exact ⟨hnet, hnt, hPsel, hPfound⟩

theorem foundInv_init (w : Waiter) (N : Nat) (inst : Instance) (hN : 1 ≤ N) :
    FoundInv w N inst pollInit := by
  simp [FoundInv, pollInit]
  exact hN

theorem eq_replicate_of_forall {q : Query} {l : List Query} (h : ∀ x ∈ l, x = q) :
    l = List.replicate l.length q :=
  List.eq_replicate_of_mem h

/-- The moment the success case is taken: the loop has sent exactly `N`
queries. -/
theorem found_moment {w : Waiter} {N : Nat} {inst : Instance} {s t : State}
    (hP : FoundInv w N inst s) (hsel : s.main = Main.selecting)
    (h : t ∈ successors w s) {i : Instance} {received : Nat}
    (ht : t.main = Main.found i received) : t.net = List.replicate N w.query := by
  obtain ⟨hnet, -, hPsel, -⟩ := hP
  obtain ⟨-, h⟩ := successors_cases h
  rcases h with ⟨hp, rfl⟩ | ⟨wake, hp, hw, rfl⟩ | ⟨j, hm, hp, rfl⟩ | ⟨hm, hd, rfl⟩ |
    ⟨hm, rfl⟩ | ⟨wake, hm, hd, hp, hw, rfl⟩ | ⟨wake, hm, hp, hw, rfl⟩
  · rw [show s.main = Main.found i received from ht] at hsel
    cases hsel
  · rw [show s.main = Main.found i received from ht] at hsel
    cases hsel
  · have h1 := (hPsel hsel).2.2 j hp
    have h2 := eq_replicate_of_forall hnet
    rw [h1.2] at h2
    exact h2
  · simp at ht
  · exact absurd hsel hm
  · rw [show s.main = Main.found i received from ht] at hsel
    cases hsel
  · exact absurd hsel hm

/-- C3, as the claim states it, fails for a timeout so large that its
nanoseconds do not fit in 64 bits: with T = 9223372037 and N = 3 (the first
two answers, after 0 and 1 seconds, report `orders/i-1` as "STARTING", the
third, after 2 seconds, as "UP") the duration of the timer wraps to a negative
number, the deadline is ready at the start, and the wait ends with the error
of the deadline, before any query or after the first one. -/
theorem polling_found_timer_wraps :
    (0 < 9223372037 ∧ 1 ≤ 3 ∧ 3 - 1 < 9223372037) ∧
      (flippingClient 2).registry 0 0 (Query.GetInstanceByAppAndId "orders" "i-1") =
        [ordersInstance "STARTING"] ∧
      (flippingClient 2).registry 1 second (Query.GetInstanceByAppAndId "orders" "i-1") =
        [ordersInstance "STARTING"] ∧
      (flippingClient 2).registry 2 (2 * second)
          (Query.GetInstanceByAppAndId "orders" "i-1") =
        [ordersInstance "UP"] ∧
      timerDuration 9223372037 = -9223372036709551616 ∧
      waitAction (flippingClient 2) ["orders", "i-1"] 9223372037 [1] =
        { net := [], stdout := [Output.waiting "i-1" "orders"],
          ending := Ending.exitError "Wait timout exit" timeoutErrorCode } ∧
      waitAction (flippingClient 2) ["orders", "i-1"] 9223372037 [0, 0] =
        { net := [Query.GetInstanceByAppAndId "orders" "i-1"],
          stdout := [Output.waiting "i-1" "orders"],
          ending := Ending.exitError "Wait timout exit" timeoutErrorCode } := by
  decide

/-- C3, amended: let both identifiers be non-empty, the timeout be T seconds
with 0 < T <= 9223372036 (so that its nanoseconds fit in 64 bits) and N >= 1
with N - 1 < T. If the answers to the first N - 1 queries (the k-th sent
after k - 1 seconds) have no first record with status "UP" and the answer to
the N-th has the first record `inst` with status "UP", then under every
schedule the polling wait is either still running or has returned normally,
having printed the waiting line, the elapsed time of N - 1 seconds since the
start and the table of `inst`; every schedule that is long enough has
returned so; every query sent is the one by application and id; and at the
moment the success case is taken exactly N queries have been sent. -/
theorem polling_found_on_nth_query (client : Client) (args : List String) (T N : Nat)
    (inst : Instance) (rest : List Instance) (schedule : List Nat)
    (ha : Args.Get args 0 ≠ "") (hi : Args.Get args 1 ≠ "")
    (hT : 0 < T) (hmax : T ≤ 9223372036) (hN : 1 ≤ N) (hlt : N - 1 < T)
    (hfirst : ∀ k, k + 1 < N →
      ¬ ∃ first others,
        client.registry k (k * second)
            (Query.GetInstanceByAppAndId (Args.Get args 0) (Args.Get args 1)) =
          first :: others ∧ first.Status = "UP")
    (hNth : client.registry (N - 1) ((N - 1) * second)
        (Query.GetInstanceByAppAndId (Args.Get args 0) (Args.Get args 1)) = inst :: rest)
    (hup : inst.Status = "UP") :
    ((waitAction client args (T : Int) schedule).ending = Ending.running ∨
        ((waitAction client args (T : Int) schedule).ending = Ending.returned ∧
          (waitAction client args (T : Int) schedule).stdout =
            [Output.waiting (Args.Get args 1) (Args.Get args 0),
              Output.took ((N - 1) * second), Output.table [inst]])) ∧
      (4 * T + 3 ≤ schedule.length →
        (waitAction client args (T : Int) schedule).ending = Ending.returned ∧
          (waitAction client args (T : Int) schedule).stdout =
            [Output.waiting (Args.Get args 1) (Args.Get args 0),
              Output.took ((N - 1) * second), Output.table [inst]]) ∧
      (∀ q ∈ (waitAction client args (T : Int) schedule).net,
        q = Query.GetInstanceByAppAndId (Args.Get args 0) (Args.Get args 1)) ∧
      (∀ t ∈ successors (waiter client args (T : Int))
          (exec (waiter client args (T : Int)) schedule pollInit),
        (exec (waiter client args (T : Int)) schedule pollInit).main = Main.selecting →
          ∀ i received, t.main = Main.found i received →
            i = inst ∧ received = (N - 1) * second ∧
              t.net = List.replicate N
                (Query.GetInstanceByAppAndId (Args.Get args 0) (Args.Get args 1))) := by
  have ht0 : (T : Int) ≠ 0 := by omega
  rw [waitAction_polling client args T schedule ha hi ht0]
  obtain ⟨w, hw⟩ : ∃ w : Waiter, w = waiter client args (T : Int) := ⟨_, rfl⟩
  have hdl : w.deadline = T * second := by
    rw [hw, waiter_deadline, timerDuration_small T hmax]
  have hq : w.query = Query.GetInstanceByAppAndId (Args.Get args 0) (Args.Get args 1) := by
    rw [hw]; rfl
  have hcl : w.client = client := by rw [hw]; rfl
  rw [← hw, ← hq]
  have hstep := @foundInv_step w N inst hN
    (by
      rw [hdl]
      exact Nat.mul_lt_mul_of_pos_right hlt second_pos)
    (by
      intro k hk
      rw [firstUp_eq_none, hcl, hq]
      exact hfirst k hk)
    (by
      rw [firstUp_eq_some, hcl, hq]
      exact ⟨rest, hNth, hup⟩)
  obtain ⟨hinv, hP⟩ := exec_induction w (FoundInv w N inst) hstep schedule pollInit
    (invariant_init w) (foundInv_init w N inst hN)
  have key : ∀ i received, (exec w schedule pollInit).main = Main.found i received →
      (pollRun (Args.Get args 0) (Args.Get args 1) (exec w schedule pollInit)).ending =
          Ending.returned ∧
        (pollRun (Args.Get args 0) (Args.Get args 1) (exec w schedule pollInit)).stdout =
          [Output.waiting (Args.Get args 1) (Args.Get args 0),
            Output.took ((N - 1) * second), Output.table [inst]] := by
    intro i received hm
    obtain ⟨h1, h2⟩ := hP.2.2.2 i received hm
    have h3 : received = (N - 1) * second := by
      obtain ⟨M, rfl⟩ : ∃ M, N = M + 1 := ⟨N - 1, by omega⟩
      simp [Nat.add_mul] at h2 ⊢
      exact h2
    simp [pollRun, hm, successFunction, h1, h3]
  refine ⟨?_, ?_, ?_, ?_⟩
  · cases hm : (exec w schedule pollInit).main with
    | selecting =>
      left
      simp [pollRun, hm]
    | timedOut => exact absurd hm hP.2.1
    | found i received => exact Or.inr (key i received hm)
  · intro hlen
    have hdec : (exec w schedule pollInit).main ≠ Main.selecting :=
      exec_decided schedule (invariant_init w) (by
        rw [remaining_init, hdl]
        have : T * second / second = T := Nat.mul_div_cancel _ second_pos
        omega)
    cases hm : (exec w schedule pollInit).main with
    | selecting => exact absurd hm hdec
    | timedOut => exact absurd hm hP.2.1
    | found i received => exact key i received hm
  · exact hP.1
  · intro t ht hsel i received hfound
    have hPt := hstep _ t hinv hP ht
    obtain ⟨h1, h2⟩ := hPt.2.2.2 i received hfound
    refine ⟨h1, ?_, found_moment hP hsel ht hfound⟩
    obtain ⟨M, rfl⟩ : ∃ M, N = M + 1 := ⟨N - 1, by omega⟩
    simp [Nat.add_mul] at h2 ⊢
    exact h2

/-- C3, amended, at the scenario of the specification: `orders/i-1` is
"STARTING" and is "UP" from 3 seconds on; the wait with timeout 10 returns
with the elapsed time of 3 seconds, which lies in [3, 4) seconds. -/
theorem polling_found_on_nth_query_witness :
    ((waitAction (flippingClient 3) ["orders", "i-1"] 10 (List.replicate 43 0)).ending =
        Ending.returned ∧
      (waitAction (flippingClient 3) ["orders", "i-1"] 10 (List.replicate 43 0)).stdout =
        [Output.waiting "i-1" "orders", Output.took (3 * second),
          Output.table [ordersInstance "UP"]]) ∧
      3 * second ≤ 3 * second ∧ 3 * second < 4 * second :=
  ⟨(polling_found_on_nth_query (flippingClient 3) ["orders", "i-1"] 10 4
      (ordersInstance "UP") [] (List.replicate 43 0) (by decide) (by decide)
      (by decide) (by decide) (by decide) (by decide)
      (by
        intro k hk
        rintro ⟨first, others, h1, h2⟩
        have hk3 : k * second < 3 * second :=
          Nat.mul_lt_mul_of_pos_right (by omega) second_pos
        simp only [flippingClient, Args.Get, List.getD_cons_zero, List.getD_cons_succ,
          if_pos hk3, List.cons.injEq] at h1
        rw [← h1.1] at h2
        revert h2
        decide)
      (by decide) rfl).2.1 (by decide),
    by decide, by decide⟩

theorem net_step {w : Waiter} {s t : State} (h : t ∈ successors w s) :
    s.net.length ≤ t.net.length := by
  obtain ⟨-, h⟩ := successors_cases h
  rcases h with ⟨_, rfl⟩ | ⟨_, _, _, rfl⟩ | ⟨_, _, _, rfl⟩ | ⟨_, _, rfl⟩ |
    ⟨_, rfl⟩ | ⟨_, _, _, _, _, rfl⟩ | ⟨_, _, _, _, rfl⟩ <;> simp

theorem net_exec (w : Waiter) (schedule : List Nat) (s : State) :
    s.net.length ≤ (exec w schedule s).net.length := by
  induction schedule generalizing s with
  | nil => exact le_refl _
  | cons c rest ih =>
    refine le_trans ?_ (ih (next w c s))
    rcases next_mem w c s with h | ⟨_, h⟩
    · exact net_step h
    · rw [h]

/-- C7, as the claim states it, fails: for `orders/i-1` absent from the
registry, the wait with timeout 0 ends with "Not found" and the wait with
timeout 1 ends with "Wait timout exit", and the process exits with code 2 in
both cases. -/
theorem wait_not_found_shares_timeout_code :
    (waitAction (constClient []) ["orders", "i-1"] 0 []).ending =
        Ending.exitError "Not found" 2 ∧
      (waitAction (constClient []) ["orders", "i-1"] 1 [0, 0, 1]).ending =
        Ending.exitError "Wait timout exit" 2 ∧
      (waitAction (constClient []) ["orders", "i-1"] 0 []).ending.exitCode =
        (waitAction (constClient []) ["orders", "i-1"] 1 [0, 0, 1]).ending.exitCode := by
  decide

/-- C7, amended: the deadline of a polling wait (2), `info url` finding no
instance (3), a missing instance id (4) and a missing application name (5)
are reported with pairwise distinct exit codes. The `wait` command has one
error code: the wait with timeout 0 that finds no first record with status
"UP" also exits with code 2, and differs from the fired deadline by its
message, "Not found" instead of "Wait timout exit". -/
theorem exit_codes (client : Client) (args : List String) (time : Int)
    (schedule : List Nat) :
    [timeoutErrorCode, infoUrlInstanceNotFoundCode, idEmptyErrorCode,
        appNameEmptyErrorCode].Nodup ∧
      (Args.Get args 0 = "" →
        (waitAction client args time schedule).ending.exitCode =
            some appNameEmptyErrorCode ∧
          (urlAction client args).ending.exitCode = some appNameEmptyErrorCode) ∧
      (Args.Get args 0 ≠ "" → Args.Get args 1 = "" →
        (waitAction client args time schedule).ending.exitCode = some idEmptyErrorCode ∧
          (urlAction client args).ending.exitCode = some idEmptyErrorCode) ∧
      (Args.Get args 0 ≠ "" → Args.Get args 1 ≠ "" →
        ((urlAction client args).ending.exitCode = some infoUrlInstanceNotFoundCode ↔
            client.registry 0 0
              (Query.GetInstanceByAppAndId (Args.Get args 0) (Args.Get args 1)) = []) ∧
          ((urlAction client args).ending.exitCode = some 0 ↔
            client.registry 0 0
              (Query.GetInstanceByAppAndId (Args.Get args 0) (Args.Get args 1)) ≠ [])) ∧
      (Args.Get args 0 ≠ "" → Args.Get args 1 ≠ "" → time ≠ 0 →
        ∀ message code,
          (waitAction client args time schedule).ending = Ending.exitError message code →
            message = "Wait timout exit" ∧ code = timeoutErrorCode) ∧
      (Args.Get args 0 ≠ "" → Args.Get args 1 ≠ "" →
        ∀ message code,
          (waitAction client args 0 schedule).ending = Ending.exitError message code →
            message = "Not found" ∧ code = timeoutErrorCode) ∧
      "Not found" ≠ "Wait timout exit" := by
  refine ⟨by decide, ?_, ?_, ?_, ?_, ?_, by decide⟩
  · intro ha
    simp [urlAction, waitAction, ha, Ending.exitCode]
  · intro ha hi
    simp [urlAction, waitAction, ha, hi, Ending.exitCode]
  · intro ha hi
    simp only [urlAction, if_neg ha, if_neg hi, Client.GetInstanceByAppAndId, Client.call,
      List.length_nil]
    cases client.registry 0 0
        (Query.GetInstanceByAppAndId (Args.Get args 0) (Args.Get args 1)) <;>
      simp [Ending.exitCode, infoUrlInstanceNotFoundCode]
  · intro ha hi ht message code
    rw [waitAction_polling client args time schedule ha hi ht]
    simp only [pollRun]
    split <;> simp
    intro h1 h2
    exact ⟨h1.symm, h2.symm⟩
  · intro ha hi message code
    simp only [waitAction, if_neg ha, if_neg hi, foundInstanceFunction,
      Client.GetInstanceByAppAndId, Client.call, List.length_nil]
    cases client.registry 0 0
        (Query.GetInstanceByAppAndId (Args.Get args 0) (Args.Get args 1)) with
    | nil =>
      simp
      intro h1 h2
      exact ⟨h1.symm, h2.symm⟩
    | cons first rest =>
      by_cases h : first.Status = "UP"
      · simp [h]
      · simp [h]
        intro h1 h2
        exact ⟨h1.symm, h2.symm⟩

end EurekaCli
